import Mathlib

/-!
Verification development for the KeccakTools code-generation and oracle
components (`Sources/Keccak-fCodeGen.h`, `Sources/Keccak-f25LUT.h`).

Only the headers of the repository are available; every implementation
behind them is modelled from the specification, as indicated by the
`Modelled from the spec:` doc comments below.  The development fixes the
geometry at width 25 (lane size 1, interleaving factor 1, word size 1),
which is the width used by the truth-table oracle and by the generated-code
correctness obligation.

The generated C code is deeply embedded: `Expr` is the expression grammar
the emission helpers (`strXOR`, `strNOT`, `strROL`, `strANDORnot`) build,
`Stmt` is one emitted assignment (or xor-assignment), and a `Program` is
the list of statements in emission order.  `run` executes a program over an
environment binding the emitted variable names (the A/B/C/D/E roles of
`genCodeForRound`) to one-bit lane values.
-/

namespace KeccakTools

/-- One Keccak-f[25] state: a bit for each of the 5×5 lanes (lane size 1),
addressed by the x and y coordinates. -/
abbrev State := Fin 5 → Fin 5 → Bool

/-- A lane-complementing pattern: one polarity bit per lane.  Modelled from
the spec: the chi polarity mask is "a per-lane bit pattern indicating
whether a lane is represented in true or complemented boolean form". -/
abbrev Mask := Fin 5 → Fin 5 → Bool

/-- The all-true-polarity (empty) complementing pattern. -/
def zeroMask : Mask := fun _ _ => false

/-! ## Reference permutation semantics

Modelled from the spec: the geometry provider and the reference round
function are external collaborators; §4.2 describes the five sub-steps
(θ sheet parities, ρ rotations, π repositioning, χ nonlinearity, ι constant
injection) and §8 refers to "the public rotation-offset and round-constant
tables".  The round-constant table itself is outside the spec's scope, so
it is kept as a parameter `RC : Nat → Bool` giving the single constant bit
of each round at lane size 1. -/

/-- XOR of the five bits of one sheet column. -/
def xor5 (a b c d e : Bool) : Bool := a.xor (b.xor (c.xor (d.xor e)))

/-- Sheet parity of column x: the XOR of the five lanes of the sheet. -/
def colParity (a : State) (x : Fin 5) : Bool :=
  xor5 (a x 0) (a x 1) (a x 2) (a x 3) (a x 4)

/-- Modelled from the spec: the θ step — "for each lane, the new value XORs
in the parity of the two sheet-neighbor columns"; at lane size 1 the
per-column rotation by one bit is the identity. -/
def thetaFn (a : State) : State :=
  fun x y => (a x y).xor ((colParity a (x - 1)).xor (colParity a (x + 1)))

/-- Modelled from the spec: the π repositioning — each lane is renamed to
the position given by the coordinate-permutation table; the lane arriving
at (x, y) comes from (x + 3y, x). -/
def piTrans (a : State) : State := fun x y => a (x + 3 * y) x

/-- The state after the linear steps θ, ρ and π (the values the B
variables of the generated code hold); at lane size 1 the ρ rotations are
the identity. -/
def bFn (a : State) : State := piTrans (thetaFn a)

/-- Modelled from the spec: the χ step restricted to one row — "lane XOR
(NOT neighbor1 AND neighbor2)" on the lane and its two row-neighbors. -/
def chiRow (r : Fin 5 → Bool) (x : Fin 5) : Bool :=
  (r x).xor ((!(r (x + 1))) && r (x + 2))

/-- Modelled from the spec: the χ step, applied row by row. -/
def chiFn (a : State) : State := fun x y => chiRow (fun u => a u y) x

/-- Modelled from the spec: the ι step — "XOR of a single round constant
into exactly one fixed lane", the lane at the origin. -/
def iotaBit (rc : Bool) (x y : Fin 5) : Bool :=
  if x = 0 ∧ y = 0 then rc else false

/-- Modelled from the spec: the reference round function, the composition
θ then ρ/π then χ then ι with the round-constant bit `rc`. -/
def roundFn (rc : Bool) (a : State) : State :=
  fun x y => (chiFn (bFn a) x y).xor (iotaBit rc x y)

/-- Rounds i, i+1, ..., i+nr-1 of the permutation, applied in order. -/
def permFrom (RC : Nat → Bool) : Nat → Nat → State → State
  | _, 0, s => s
  | i, nr + 1, s => permFrom RC (i + 1) nr (roundFn (RC i) s)

/-- Modelled from the spec: the reference Keccak-f[25] permutation with n
rounds, as the oracle applies it ("applying the reference round function
for the requested round count"). -/
def keccakP (RC : Nat → Bool) (n : Nat) (s : State) : State :=
  permFrom RC 0 n s

/-! ## The truth-table oracle (Keccak-f25LUT)

Modelled from the spec: the oracle brute-force computes the full
input→output table of the permutation for a requested round count,
"enumerating all 2^25 possible states, applying the reference round
function for the requested round count to each, and recording the image in
index order", with an on-disk cache modelled (following design note §9) as
an explicit key→table store keyed by (width, nrRounds). -/

/-- A bijection between states and the 2^25 slice values indexing the
lookup table.  Modelled from the spec: the exact bit packing of a slice
value is an internal detail of the external state-representation layer;
only its bijectivity and fixed order matter to the stated properties. -/
def stateEquiv : State ≃ Fin (2 ^ 25) :=
  ((Equiv.arrowCongr (Equiv.refl (Fin 5))
      (Equiv.arrowCongr (Equiv.refl (Fin 5)) finTwoEquiv.symm)).trans
    ((Equiv.arrowCongr (Equiv.refl (Fin 5)) finFunctionFinEquiv).trans
      (finFunctionFinEquiv.trans (finCongr (by norm_num)))))

/-- Modelled from the spec: the cache, "an explicit key→table store
abstraction (key = (width, nrRounds))". -/
abbrev Cache := Nat × Nat → Option (List Nat)

/-- A cache with no entries (a cold cache). -/
def emptyCache : Cache := fun _ => none

/-- Modelled from the spec: `generateLUT` computes the table by brute
force, one entry per input slice value in ascending input-index order. -/
def generateLUT (RC : Nat → Bool) (nrRounds : Nat) : List Nat :=
  (List.finRange (2 ^ 25)).map fun i =>
    (stateEquiv (keccakP RC nrRounds (stateEquiv.symm i))).val

/-- Modelled from the spec: `saveLUT` persists the table under the key
(width = 25, nrRounds). -/
def saveLUT (c : Cache) (nrRounds : Nat) (t : List Nat) : Cache :=
  Function.update c (25, nrRounds) (some t)

/-- Modelled from the spec: `retrieveLUT` attempts to load a matching
cached table; a missing entry, an entry under other parameters, or a
truncated entry (not exactly 2^25 values) is a cache-read fault and yields
nothing. -/
def retrieveLUT (c : Cache) (nrRounds : Nat) : Option (List Nat) :=
  match c (25, nrRounds) with
  | some t => if t.length = 2 ^ 25 then some t else none
  | none => none

/-- The oracle object: the class `KeccakF25LUT` with its `LUT` attribute,
the lookup table for Keccak-f[25]. -/
structure KeccakF25LUT where
  nrRounds : Nat
  LUT : List Nat

/-- Modelled from the spec: the `KeccakF25LUT` constructor — "attempt to
load a matching cached table; on cache miss or mismatch, compute it ... ;
then persist the newly computed table to the cache".  It returns the
constructed oracle together with the cache after the construction's one
read attempt and (on miss) one write attempt. -/
def KeccakF25LUT.construct (RC : Nat → Bool) (c : Cache) (aNrRounds : Nat) :
    KeccakF25LUT × Cache :=
  match retrieveLUT c aNrRounds with
  | some t => ({ nrRounds := aNrRounds, LUT := t }, c)
  | none =>
      ({ nrRounds := aNrRounds, LUT := generateLUT RC aNrRounds },
        saveLUT c aNrRounds (generateLUT RC aNrRounds))

/-- A cache is well formed when every width-25 entry it holds is the table
`saveLUT` would have persisted for its key, i.e. the brute-force table of
its round count. -/
def WellFormedCache (RC : Nat → Bool) (c : Cache) : Prop :=
  ∀ n t, c (25, n) = some t → t = generateLUT RC n

/-! ## Generator configuration (KeccakFCodeGen) -/

/-- The configuration state of the code generator, mirroring the fields of
the class `KeccakFCodeGen`: the geometry (width, lane size, round count)
plus the interleaving factor, the derived word size, the macro-vs-operator
emission flag and the schedule type. -/
structure KeccakFCodeGen where
  width : Nat
  laneSize : Nat
  nrRounds : Nat
  interleavingFactor : Nat
  wordSize : Nat
  outputMacros : Bool
  scheduleType : Nat
deriving DecidableEq, Repr

/-- Modelled from the spec: the `KeccakFCodeGen` constructor.  The lane
size comes from the geometry (width = 25·laneSize); by default the
interleaving factor is 1 (so the word size equals the lane size), macros
are off and the schedule type is 1. -/
def KeccakFCodeGen.construct (aWidth aNrRounds : Nat) : KeccakFCodeGen :=
  { width := aWidth
    laneSize := aWidth / 25
    nrRounds := aNrRounds
    interleavingFactor := 1
    wordSize := aWidth / 25
    outputMacros := false
    scheduleType := 1 }

/-- Modelled from the spec: `setInterleavingFactor` is a validated
mutation — "the interleavingFactor must divide the lane size" and is at
least 1; an invalid factor is rejected (fail fast), leaving the
configuration unchanged, and an accepted one re-derives
wordSize = laneSize / interleavingFactor. -/
def setInterleavingFactor (g : KeccakFCodeGen) (anInterleavingFactor : Nat) :
    Option KeccakFCodeGen :=
  if 1 ≤ anInterleavingFactor ∧ anInterleavingFactor ∣ g.laneSize then
    some { g with
      interleavingFactor := anInterleavingFactor
      wordSize := g.laneSize / anInterleavingFactor }
  else none

/-- The setter `setOutputMacros` sets the macro-vs-operator emission flag. -/
def setOutputMacros (g : KeccakFCodeGen) (anOutputMacros : Bool) : KeccakFCodeGen :=
  { g with outputMacros := anOutputMacros }

/-- Modelled from the spec: `setScheduleType` is a validated mutation — the
schedule type "must be 1 or 2"; anything else is rejected (fail fast),
leaving the configuration unchanged. -/
def setScheduleType (g : KeccakFCodeGen) (aScheduleType : Nat) :
    Option KeccakFCodeGen :=
  if aScheduleType = 1 ∨ aScheduleType = 2 then
    some { g with scheduleType := aScheduleType }
  else none

/-- A sample configuration with an accepted interleaving factor of 2 on a
width-1600 geometry (lane size 64, word size 32), used to exhibit the
setter behaviour at a concrete input. -/
def sampleInterleaved : KeccakFCodeGen :=
  { width := 1600, laneSize := 64, nrRounds := 12, interleavingFactor := 2,
    wordSize := 32, outputMacros := false, scheduleType := 1 }

/-! ## The emitted code: syntax and semantics -/

/-- The variables the generated round code manipulates, mirroring the
variable roles documented for `genCodeForRound`: A holds the state, B the
lanes after rho and pi, C the sheet parities, D the theta XOR terms and E
the output of chi. -/
inductive Var where
  | A (x y : Fin 5)
  | B (x y : Fin 5)
  | C (x : Fin 5)
  | D (x : Fin 5)
  | E (x y : Fin 5)
deriving DecidableEq, Repr

/-- The expression grammar of the emitted C code: variables combined with
the bitwise operators AND/OR/NOT/XOR/rotate and literal constants. -/
inductive Expr where
  | var (v : Var)
  | xor (a b : Expr)
  | and (a b : Expr)
  | or (a b : Expr)
  | not (e : Expr)
  | rol (e : Expr) (amount : Nat)
  | const (b : Bool)
deriving DecidableEq, Repr

/-- One emitted statement: a plain assignment `v = e;` or an
xor-assignment `v ^= e;` (the form `strXOReq` emits). -/
inductive Stmt where
  | assign (v : Var) (e : Expr)
  | xoreq (v : Var) (e : Expr)
deriving DecidableEq, Repr

/-- A generated code fragment, in emission order. -/
abbrev Program := List Stmt

/-- An environment giving the current one-bit value of every variable of
the generated code. -/
abbrev Env := Var → Bool

/-- Value of an expression of the generated code.  The words of the
width-25 target are single bits, so a rotation within a word is the
identity. -/
def eval (env : Env) : Expr → Bool
  | .var v => env v
  | .xor a b => (eval env a).xor (eval env b)
  | .and a b => (eval env a) && (eval env b)
  | .or a b => (eval env a) || (eval env b)
  | .not e => !(eval env e)
  | .rol e _ => eval env e
  | .const b => b

/-- The variables an expression mentions. -/
def reads : Expr → List Var
  | .var v => [v]
  | .xor a b => reads a ++ reads b
  | .and a b => reads a ++ reads b
  | .or a b => reads a ++ reads b
  | .not e => reads e
  | .rol e _ => reads e
  | .const _ => []

/-- The variable a statement writes. -/
def Stmt.target : Stmt → Var
  | .assign v _ => v
  | .xoreq v _ => v

/-- The right-hand side a statement stores: an xor-assignment `v ^= e`
stores `v ^ e`. -/
def Stmt.rhs : Stmt → Expr
  | .assign _ e => e
  | .xoreq v e => .xor (.var v) e

/-- Effect of one emitted statement on the environment. -/
def step (env : Env) (s : Stmt) : Env :=
  Function.update env s.target (eval env s.rhs)

/-- Effect of a generated code fragment, statement by statement in emission
order. -/
def run (p : Program) (env : Env) : Env :=
  p.foldl step env

/-! ## The emission helpers of KeccakFCodeGen -/

/-- The helper `strXOR` emits the XOR of two expressions. -/
def strXOR (A B : Expr) : Expr := .xor A B

/-- The helper `strXOReq` emits the statement `A ^= B;`. -/
def strXOReq (A : Var) (B : Expr) : Stmt := .xoreq A B

/-- Modelled from the spec: `strNOT` emits its argument complemented when
`complement` is set and verbatim otherwise. -/
def strNOT (A : Expr) (complement : Bool) : Expr :=
  if complement then .not A else A

/-- The helper `strROL` emits a left rotation of a word by a fixed amount. -/
def strROL (symbol : Expr) (amount : Nat) : Expr := .rol symbol amount

/-- Modelled from the spec: `strANDORnot` emits the χ term
NOT(first) AND (second) as "a logically equivalent OR/AND form chosen to
minimize operator count, provided the per-lane true/complemented polarity
declared by the input mask is honored": `LC1` and `LC2` declare the
polarities of the two operands and `LOR` selects the OR form (used when
only the second operand is complemented, where it saves one negation). -/
def strANDORnot (A B : Expr) (LC1 LC2 LOR : Bool) : Expr :=
  if LOR then .not (.or (if LC1 then .not A else A) B)
  else .and (if LC1 then A else .not A) (if LC2 then .not B else B)

/-- The word size of the generation target modelled here: width 25, lane
size 1, interleaving factor 1, hence one-bit words.  Rotation amounts are
reduced modulo this width when the code is emitted. -/
def targetWordSize : Nat := 1

/-- Modelled from the spec: the per-lane rotation-offset table of ρ (the
public rotation constants, indexed by x then y). -/
def rhoOffsets (x y : Fin 5) : Nat :=
  (([[0, 36, 3, 41, 18], [1, 44, 10, 45, 2], [62, 6, 43, 15, 61],
      [28, 55, 25, 21, 56], [27, 20, 39, 8, 14]].getD x.val []).getD y.val 0)

/-! ## The code genCodeForRound emits

Modelled from the spec, §4.2, and the contract documented in the header:
the generated code first computes the theta effects D from the sheet
parities C, XORs the D's into the A's, moves and rotates the lanes into
the B's for ρ and π, evaluates χ from the B's into the E's honoring the
two complementing masks, XORs the round constant into the origin lane,
and, when `prepareTheta` is requested, also computes the sheet parities of
the E's into the C's for the next round. -/

/-- The θ-effect statements: `D[x] = C[x-1] ^ ROL(C[x+1], 1)`. -/
def thetaDBlock : Program :=
  (List.finRange 5).map fun x =>
    .assign (.D x)
      (strXOR (.var (.C (x - 1))) (strROL (.var (.C (x + 1))) (1 % targetWordSize)))

/-- The θ-application statements: `A[x][y] ^= D[x]`. -/
def thetaApplyBlock : Program :=
  (List.finRange 5).flatMap fun x =>
    (List.finRange 5).map fun y => strXOReq (.A x y) (.var (.D x))

/-- The ρ/π statements: the lane arriving at B position (x, y) is the A
lane at (x+3y, x), rotated by its ρ offset reduced modulo the word size. -/
def rhoPiBlock : Program :=
  (List.finRange 5).flatMap fun x =>
    (List.finRange 5).map fun y =>
      .assign (.B x y)
        (strROL (.var (.A (x + 3 * y) x)) (rhoOffsets (x + 3 * y) x % targetWordSize))

/-- The χ expression emitted for the lane at (x, y): the lane, negated
exactly when its input and desired output polarities disagree, XORed with
the `strANDORnot` term over its two row-neighbors. -/
def chiExpr (inChiMask outChiMask : Mask) (x y : Fin 5) : Expr :=
  strXOR (strNOT (.var (.B x y)) (inChiMask x y != outChiMask x y))
    (strANDORnot (.var (.B (x + 1) y)) (.var (.B (x + 2) y))
      (inChiMask (x + 1) y) (inChiMask (x + 2) y)
      (!(inChiMask (x + 1) y) && inChiMask (x + 2) y))

/-- The χ statements: `E[x][y] = ...` from the B's. -/
def chiBlock (inChiMask outChiMask : Mask) : Program :=
  (List.finRange 5).flatMap fun x =>
    (List.finRange 5).map fun y => .assign (.E x y) (chiExpr inChiMask outChiMask x y)

/-- The ι statement: the round constant is XORed into the origin lane. -/
def iotaStmt (rc : Bool) : Stmt := strXOReq (.E 0 0) (.const rc)

/-- The sheet-parity statements computed alongside χ when theta
pipelining is requested: `C[x] = E[x][0] ^ ... ^ E[x][4]`. -/
def prepCBlock : Program :=
  (List.finRange 5).map fun x =>
    .assign (.C x)
      (strXOR (.var (.E x 0)) (strXOR (.var (.E x 1))
        (strXOR (.var (.E x 2)) (strXOR (.var (.E x 3)) (.var (.E x 4))))))

/-- Modelled from the spec: the code `genCodeForRound` emits for one round,
given the two complementing masks, the round-constant bit supplied by the
assembly from the geometry's table, and the `prepareTheta` pipelining
request. -/
def genCodeForRound (prepareTheta : Bool) (inChiMask outChiMask : Mask)
    (rc : Bool) : Program :=
  thetaDBlock ++ (thetaApplyBlock ++ (rhoPiBlock ++
    (chiBlock inChiMask outChiMask ++
      ([iotaStmt rc] ++ (if prepareTheta then prepCBlock else [])))))

/-- Modelled from the spec: `genCodeForPrepareTheta` computes the sheet
parities of the A's into the C's, "computing them inline for the first
round". -/
def genCodeForPrepareTheta : Program :=
  (List.finRange 5).map fun x =>
    .assign (.C x)
      (strXOR (.var (.A x 0)) (strXOR (.var (.A x 1))
        (strXOR (.var (.A x 2)) (strXOR (.var (.A x 3)) (.var (.A x 4))))))

/-- The `genCopyStateVariables` statements used between rounds: copy the
round output E back into the state variables A. -/
def genCopyStateVariables : Program :=
  (List.finRange 5).flatMap fun x =>
    (List.finRange 5).map fun y => .assign (.A x y) (.var (.E x y))

/-- Modelled from the spec: the final polarity fix-up of the assembled
complemented variant — each lane whose advertised output polarity after
the last round is complemented gets one negation so the self-contained
unit delivers the state in true form; with the empty mask no statement
changes anything. -/
def finalComplementFix (m : Mask) : Program :=
  (List.finRange 5).flatMap fun x =>
    (List.finRange 5).map fun y =>
      .assign (.A x y) (strNOT (.var (.A x y)) (m x y))

/-- The chained per-round code of the assembled unit: round i is emitted
with the input-of-χ mask derived from the current polarity `mA` of the A
variables by pushing it through the linear steps (`bFn`), and with the
output-of-χ mask `q i` chosen by the complementing schedule; after each
round the output E is copied back into A.  After the last round the final
polarity is fixed up. -/
def roundsCode (RC : Nat → Bool) (q : Nat → Mask) : Nat → Nat → Mask → Program
  | 0, _, mA => finalComplementFix mA
  | nr + 1, i, mA =>
      (genCodeForRound true (bFn mA) (q i) (RC i) ++ genCopyStateVariables) ++
        roundsCode RC q nr (i + 1) (q i)

/-- Modelled from the spec: the complete self-contained unit `genMacroFile`
assembles for an n-round permutation under the complementing schedule `q`:
the first-round sheet parities computed inline, then the chained per-round
code starting from all-true polarity. -/
def genMacroFileProgram (RC : Nat → Bool) (q : Nat → Mask) (n : Nat) : Program :=
  genCodeForPrepareTheta ++ roundsCode RC q n 0 zeroMask

/-- The straightforward variant: every lane in true polarity in every
round. -/
def straightforwardProgram (RC : Nat → Bool) (n : Nat) : Program :=
  genMacroFileProgram RC (fun _ => zeroMask) n

/-- Modelled from the spec: a non-zero complementing pattern used by the
lane-complementing variant (some lanes of the first row are kept in
complemented form). -/
def stdMask : Mask := fun x y => decide (y = 0 ∧ (x = 1 ∨ x = 2))

/-- The lane-complementing variant: the χ outputs of every round are
produced under the non-zero pattern `stdMask`, with the matching input
masks derived round over round. -/
def complementedProgram (RC : Nat → Bool) (n : Nat) : Program :=
  genMacroFileProgram RC (fun _ => stdMask) n

/-- Modelled from the spec: `genMacroFile` emits the straightforward code
and, when `laneComplementing` is set, additionally the lane-complemented
variant "side by side for the caller to select from". -/
def genMacroFile (RC : Nat → Bool) (n : Nat) (laneComplementing : Bool) :
    List Program :=
  if laneComplementing then
    [straightforwardProgram RC n, complementedProgram RC n]
  else [straightforwardProgram RC n]

/-- The initial environment of the generated code: the A variables hold
the input state, everything else starts clear. -/
def initEnv (s : State) : Env :=
  fun v => match v with
  | .A x y => s x y
  | _ => false

/-- The function a generated program computes: run it from the input state
and read the state variables A. -/
def progFun (p : Program) (s : State) : State :=
  fun x y => run p (initEnv s) (.A x y)

/-- The two environment facts the chained round code maintains: the A
variables hold the true state complemented by the mask `m`, and the C
variables hold the sheet parities of those stored values. -/
def GoodEnv (s : State) (m : Mask) (env : Env) : Prop :=
  (∀ x y, env (.A x y) = (s x y).xor (m x y)) ∧
  (∀ x, env (.C x) = colParity (fun u v => (s u v).xor (m u v)) x)

/-! ## Basic semantics lemmas -/

theorem run_nil (env : Env) : run [] env = env := rfl

theorem run_cons (s : Stmt) (p : Program) (env : Env) :
    run (s :: p) env = run p (step env s) := rfl

theorem run_append (p q : Program) (env : Env) :
    run (p ++ q) env = run q (run p env) :=
  List.foldl_append ..

/-- Expressions only depend on the variables they mention. -/
theorem eval_congr {env env2 : Env} : ∀ (e : Expr),
    (∀ u ∈ reads e, env u = env2 u) → eval env e = eval env2 e
  | .var v, h => h v (by simp [reads])
  | .xor a b, h => by
      simp only [eval]
      rw [eval_congr a fun u hu => h u (by simp [reads, hu]),
        eval_congr b fun u hu => h u (by simp [reads, hu])]
  | .and a b, h => by
      simp only [eval]
      rw [eval_congr a fun u hu => h u (by simp [reads, hu]),
        eval_congr b fun u hu => h u (by simp [reads, hu])]
  | .or a b, h => by
      simp only [eval]
      rw [eval_congr a fun u hu => h u (by simp [reads, hu]),
        eval_congr b fun u hu => h u (by simp [reads, hu])]
  | .not e, h => by
      simp only [eval]
      rw [eval_congr e fun u hu => h u (by simp [reads, hu])]
  | .rol e _, h => by
      simp only [eval]
      exact eval_congr e fun u hu => h u (by simp [reads, hu])
  | .const _, _ => rfl

/-- An emitted block whose statements write pairwise distinct variables and
read, among the written variables, at most their own target (which still
holds its old value when the statement executes) acts like a simultaneous
assignment: each written variable receives its right-hand side evaluated in
the initial environment, every other variable keeps its value. -/
theorem run_parallel (p : Program) (env : Env)
    (hnd : (p.map Stmt.target).Nodup)
    (hr : ∀ s ∈ p, ∀ u ∈ reads s.rhs, u ∈ p.map Stmt.target → u = s.target)
    (v : Var) :
    run p env v =
      ((p.find? fun s => s.target == v).map fun s => eval env s.rhs).getD (env v) := by
  induction p generalizing env with
  | nil => rfl
  | cons s rest ih =>
    have hnd2 : (rest.map Stmt.target).Nodup := (List.nodup_cons.mp hnd).2
    have hs : s.target ∉ rest.map Stmt.target := (List.nodup_cons.mp hnd).1
    have hr2 : ∀ t ∈ rest, ∀ u ∈ reads t.rhs, u ∈ rest.map Stmt.target → u = t.target := by
      intro t ht u hu hmem
      exact hr t (List.mem_cons_of_mem s ht) u hu
        (by rw [List.map_cons]; exact List.mem_cons_of_mem _ hmem)
    rw [run_cons]
    by_cases hv : s.target = v
    · have hpred : ((fun t : Stmt => t.target == v) s) = true := by simp [hv]
      have hfold : (s :: rest).find? (fun t => t.target == v) = some s :=
        List.find?_cons_of_pos _ hpred
      rw [hfold]
      rw [ih (step env s) hnd2 hr2]
      have hnone : rest.find? (fun t => t.target == v) = none := by
        rw [List.find?_eq_none]
        intro t ht hbeq
        rw [beq_iff_eq] at hbeq
        exact hs ((hbeq.trans hv.symm) ▸ List.mem_map_of_mem Stmt.target ht)
      rw [hnone]
      show step env s v = eval env s.rhs
      rw [← hv]
      simp [step, Function.update_same]
    · have hpred : ¬ (((fun t : Stmt => t.target == v) s) = true) := by simp [hv]
      have hfold : (s :: rest).find? (fun t => t.target == v)
          = rest.find? (fun t => t.target == v) :=
        List.find?_cons_of_neg _ hpred
      rw [hfold]
      rw [ih (step env s) hnd2 hr2]
      cases hfind : rest.find? (fun t => t.target == v) with
      | none =>
        show step env s v = env v
        simp [step, Function.update_noteq (Ne.symm hv)]
      | some t =>
        have htmem := List.mem_of_find?_eq_some hfind
        have htv : t.target = v := by
          have := List.find?_some hfind
          simpa using this
        show eval (step env s) t.rhs = eval env t.rhs
        apply eval_congr
        intro u hu
        have hnu : u ≠ s.target := by
          intro hus
          have humem : u ∈ (s :: rest).map Stmt.target := by
            rw [List.map_cons, hus]
            exact List.mem_cons_self _ _
          have hut := hr t (List.mem_cons_of_mem s htmem) u hu humem
          exact hv (by rw [← hus, hut, htv])
        simp [step, Function.update_noteq hnu]

/-! ## Evaluation of the emission helpers -/

theorem eval_strNOT (env : Env) (A : Expr) (c : Bool) :
    eval env (strNOT A c) = (eval env A).xor c := by
  cases c <;> simp [strNOT, eval]

/-- With the OR-form flag `strANDORnot` receives from the χ emission, the
term always computes NOT(first) AND (second) on the true lane values the
declared polarities decode to. -/
theorem eval_strANDORnot (env : Env) (A B : Expr) (p1 p2 : Bool) :
    eval env (strANDORnot A B p1 p2 (!p1 && p2))
      = ((!((eval env A).xor p1)) && ((eval env B).xor p2)) := by
  cases p1 <;> cases p2
  · show eval env (.and (.not A) B) = _
    simp only [eval]
    generalize eval env A = a
    generalize eval env B = b
    revert a b
    decide
  · show eval env (.not (.or A B)) = _
    simp only [eval]
    generalize eval env A = a
    generalize eval env B = b
    revert a b
    decide
  · show eval env (.and A B) = _
    simp only [eval]
    generalize eval env A = a
    generalize eval env B = b
    revert a b
    decide
  · show eval env (.and A (.not B)) = _
    simp only [eval]
    generalize eval env A = a
    generalize eval env B = b
    revert a b
    decide

theorem reads_strNOT (A : Expr) (c : Bool) : reads (strNOT A c) = reads A := by
  cases c <;> rfl

theorem reads_strANDORnot (A B : Expr) (p1 p2 lor : Bool) :
    reads (strANDORnot A B p1 p2 lor) = reads A ++ reads B := by
  cases lor <;> cases p1 <;> cases p2 <;> rfl

theorem reads_chiExpr (pIn pOut : Mask) (x y : Fin 5) :
    reads (chiExpr pIn pOut x y)
      = [Var.B x y, Var.B (x + 1) y, Var.B (x + 2) y] := by
  simp [chiExpr, strXOR, reads, reads_strNOT, reads_strANDORnot]

theorem eval_chiExpr (env : Env) (pIn pOut : Mask) (x y : Fin 5) :
    eval env (chiExpr pIn pOut x y)
      = ((env (.B x y)).xor ((pIn x y).xor (pOut x y))).xor
          ((!((env (.B (x + 1) y)).xor (pIn (x + 1) y)))
            && ((env (.B (x + 2) y)).xor (pIn (x + 2) y))) := by
  have hbne : ∀ a b : Bool, (a != b) = a.xor b := by decide
  simp only [chiExpr, strXOR, eval]
  rw [eval_strNOT, eval_strANDORnot, hbne]
  rfl

/-! ## What each emitted block computes -/

theorem run_thetaDBlock (env : Env) :
    run thetaDBlock env = fun v =>
      match v with
      | .D x => (env (.C (x - 1))).xor (env (.C (x + 1)))
      | v => env v := by
  funext v
  rw [run_parallel _ _ (by decide) (by decide)]
  cases v with
  | A x y => fin_cases x <;> fin_cases y <;> rfl
  | B x y => fin_cases x <;> fin_cases y <;> rfl
  | C x => fin_cases x <;> rfl
  | D x => fin_cases x <;> rfl
  | E x y => fin_cases x <;> fin_cases y <;> rfl

theorem run_thetaApplyBlock (env : Env) :
    run thetaApplyBlock env = fun v =>
      match v with
      | .A x y => (env (.A x y)).xor (env (.D x))
      | v => env v := by
  funext v
  rw [run_parallel _ _ (by decide) (by decide)]
  cases v with
  | A x y => fin_cases x <;> fin_cases y <;> rfl
  | B x y => fin_cases x <;> fin_cases y <;> rfl
  | C x => fin_cases x <;> rfl
  | D x => fin_cases x <;> rfl
  | E x y => fin_cases x <;> fin_cases y <;> rfl

theorem run_rhoPiBlock (env : Env) :
    run rhoPiBlock env = fun v =>
      match v with
      | .B x y => env (.A (x + 3 * y) x)
      | v => env v := by
  funext v
  rw [run_parallel _ _ (by decide) (by decide)]
  cases v with
  | A x y => fin_cases x <;> fin_cases y <;> rfl
  | B x y => fin_cases x <;> fin_cases y <;> rfl
  | C x => fin_cases x <;> rfl
  | D x => fin_cases x <;> rfl
  | E x y => fin_cases x <;> fin_cases y <;> rfl

theorem run_chiBlock (pIn pOut : Mask) (env : Env) :
    run (chiBlock pIn pOut) env = fun v =>
      match v with
      | .E x y => eval env (chiExpr pIn pOut x y)
      | v => env v := by
  have ht : (chiBlock pIn pOut).map Stmt.target =
      [.E 0 0, .E 0 1, .E 0 2, .E 0 3, .E 0 4,
       .E 1 0, .E 1 1, .E 1 2, .E 1 3, .E 1 4,
       .E 2 0, .E 2 1, .E 2 2, .E 2 3, .E 2 4,
       .E 3 0, .E 3 1, .E 3 2, .E 3 3, .E 3 4,
       .E 4 0, .E 4 1, .E 4 2, .E 4 3, .E 4 4] := rfl
  have hnd : ((chiBlock pIn pOut).map Stmt.target).Nodup := by
    rw [ht]; decide
  have hr : ∀ s ∈ chiBlock pIn pOut, ∀ u ∈ reads s.rhs,
      u ∈ (chiBlock pIn pOut).map Stmt.target → u = s.target := by
    intro s hs u hu hmem
    simp only [chiBlock, List.mem_flatMap, List.mem_map] at hs
    obtain ⟨x, -, y, -, rfl⟩ := hs
    rw [show Stmt.rhs (.assign (.E x y) (chiExpr pIn pOut x y))
        = chiExpr pIn pOut x y from rfl, reads_chiExpr] at hu
    rw [ht] at hmem
    simp only [List.mem_cons, List.mem_singleton, List.not_mem_nil, or_false] at hu
    rcases hu with rfl | rfl | rfl <;> simp at hmem
  funext v
  rw [run_parallel _ _ hnd hr]
  cases v with
  | A x y => fin_cases x <;> fin_cases y <;> rfl
  | B x y => fin_cases x <;> fin_cases y <;> rfl
  | C x => fin_cases x <;> rfl
  | D x => fin_cases x <;> rfl
  | E x y => fin_cases x <;> fin_cases y <;> rfl

theorem run_iotaStmt (rc : Bool) (env : Env) :
    run [iotaStmt rc] env
      = Function.update env (.E 0 0) ((env (.E 0 0)).xor rc) := rfl

theorem run_prepCBlock (env : Env) :
    run prepCBlock env = fun v =>
      match v with
      | .C x => xor5 (env (.E x 0)) (env (.E x 1)) (env (.E x 2))
          (env (.E x 3)) (env (.E x 4))
      | v => env v := by
  funext v
  rw [run_parallel _ _ (by decide) (by decide)]
  cases v with
  | A x y => fin_cases x <;> fin_cases y <;> rfl
  | B x y => fin_cases x <;> fin_cases y <;> rfl
  | C x => fin_cases x <;> rfl
  | D x => fin_cases x <;> rfl
  | E x y => fin_cases x <;> fin_cases y <;> rfl

theorem run_genCodeForPrepareTheta (env : Env) :
    run genCodeForPrepareTheta env = fun v =>
      match v with
      | .C x => xor5 (env (.A x 0)) (env (.A x 1)) (env (.A x 2))
          (env (.A x 3)) (env (.A x 4))
      | v => env v := by
  funext v
  rw [run_parallel _ _ (by decide) (by decide)]
  cases v with
  | A x y => fin_cases x <;> fin_cases y <;> rfl
  | B x y => fin_cases x <;> fin_cases y <;> rfl
  | C x => fin_cases x <;> rfl
  | D x => fin_cases x <;> rfl
  | E x y => fin_cases x <;> fin_cases y <;> rfl

theorem run_genCopyStateVariables (env : Env) :
    run genCopyStateVariables env = fun v =>
      match v with
      | .A x y => env (.E x y)
      | v => env v := by
  funext v
  rw [run_parallel _ _ (by decide) (by decide)]
  cases v with
  | A x y => fin_cases x <;> fin_cases y <;> rfl
  | B x y => fin_cases x <;> fin_cases y <;> rfl
  | C x => fin_cases x <;> rfl
  | D x => fin_cases x <;> rfl
  | E x y => fin_cases x <;> fin_cases y <;> rfl

theorem run_finalComplementFix (m : Mask) (env : Env) :
    run (finalComplementFix m) env = fun v =>
      match v with
      | .A x y => eval env (strNOT (.var (.A x y)) (m x y))
      | v => env v := by
  have ht : (finalComplementFix m).map Stmt.target =
      [.A 0 0, .A 0 1, .A 0 2, .A 0 3, .A 0 4,
       .A 1 0, .A 1 1, .A 1 2, .A 1 3, .A 1 4,
       .A 2 0, .A 2 1, .A 2 2, .A 2 3, .A 2 4,
       .A 3 0, .A 3 1, .A 3 2, .A 3 3, .A 3 4,
       .A 4 0, .A 4 1, .A 4 2, .A 4 3, .A 4 4] := rfl
  have hnd : ((finalComplementFix m).map Stmt.target).Nodup := by
    rw [ht]; decide
  have hr : ∀ s ∈ finalComplementFix m, ∀ u ∈ reads s.rhs,
      u ∈ (finalComplementFix m).map Stmt.target → u = s.target := by
    intro s hs u hu hmem
    simp only [finalComplementFix, List.mem_flatMap, List.mem_map] at hs
    obtain ⟨x, -, y, -, rfl⟩ := hs
    rw [show Stmt.rhs (.assign (.A x y) (strNOT (.var (.A x y)) (m x y)))
        = strNOT (.var (.A x y)) (m x y) from rfl, reads_strNOT] at hu
    simp only [reads, List.mem_singleton] at hu
    subst hu
    rfl
  funext v
  rw [run_parallel _ _ hnd hr]
  cases v with
  | A x y => fin_cases x <;> fin_cases y <;> rfl
  | B x y => fin_cases x <;> fin_cases y <;> rfl
  | C x => fin_cases x <;> rfl
  | D x => fin_cases x <;> rfl
  | E x y => fin_cases x <;> fin_cases y <;> rfl

/-! ## Parity and linearity algebra -/

theorem xor5_split (a0 a1 a2 a3 a4 b0 b1 b2 b3 b4 : Bool) :
    xor5 (a0.xor b0) (a1.xor b1) (a2.xor b2) (a3.xor b3) (a4.xor b4)
      = (xor5 a0 a1 a2 a3 a4).xor (xor5 b0 b1 b2 b3 b4) := by
  revert a0 a1 a2 a3 a4 b0 b1 b2 b3 b4
  decide

theorem colParity_split (s m : State) (x : Fin 5) :
    colParity (fun u v => (s u v).xor (m u v)) x
      = (colParity s x).xor (colParity m x) :=
  xor5_split (s x 0) (s x 1) (s x 2) (s x 3) (s x 4)
    (m x 0) (m x 1) (m x 2) (m x 3) (m x 4)

theorem thetaFn_split (s m : State) (x y : Fin 5) :
    thetaFn (fun u v => (s u v).xor (m u v)) x y
      = (thetaFn s x y).xor (thetaFn m x y) := by
  simp only [thetaFn, colParity_split]
  generalize s x y = a1
  generalize m x y = a2
  generalize colParity s (x - 1) = a3
  generalize colParity m (x - 1) = a4
  generalize colParity s (x + 1) = a5
  generalize colParity m (x + 1) = a6
  revert a1 a2 a3 a4 a5 a6
  decide

theorem bFn_split (s m : State) (x y : Fin 5) :
    bFn (fun u v => (s u v).xor (m u v)) x y = (bFn s x y).xor (bFn m x y) :=
  thetaFn_split s m (x + 3 * y) x

/-! ## One chained round of the generated code -/

/-- Running the code of one pipelined round from an environment holding the
state under polarity `mA`, with the input-of-χ mask derived from `mA`
through the linear steps, leaves in the E variables the round's output
under the chosen output polarity `q` and in the C variables the sheet
parities of those stored outputs, ready for the next round's θ. -/
theorem round_core (rc : Bool) (q mA : Mask) (s : State) (env : Env)
    (h : GoodEnv s mA env) :
    (∀ x y, run (genCodeForRound true (bFn mA) q rc) env (.E x y)
        = (roundFn rc s x y).xor (q x y)) ∧
    (∀ x, run (genCodeForRound true (bFn mA) q rc) env (.C x)
        = colParity (fun u v => (roundFn rc s u v).xor (q u v)) x) := by
  obtain ⟨hA, hC⟩ := h
  have hexp : run (genCodeForRound true (bFn mA) q rc) env
      = run prepCBlock (run [iotaStmt rc]
          (run (chiBlock (bFn mA) q) (run rhoPiBlock (run thetaApplyBlock
            (run thetaDBlock env))))) := by
    rw [show genCodeForRound true (bFn mA) q rc
        = thetaDBlock ++ (thetaApplyBlock ++ (rhoPiBlock ++ (chiBlock (bFn mA) q
            ++ ([iotaStmt rc] ++ prepCBlock)))) from by
      simp [genCodeForRound]]
    rw [run_append, run_append, run_append, run_append, run_append]
  rw [hexp]
  set env1 := run thetaDBlock env with hdef1
  set env2 := run thetaApplyBlock env1 with hdef2
  set env3 := run rhoPiBlock env2 with hdef3
  set env4 := run (chiBlock (bFn mA) q) env3 with hdef4
  set env5 := run [iotaStmt rc] env4 with hdef5
  set env6 := run prepCBlock env5 with hdef6
  have h1D : ∀ x, env1 (.D x) = (env (.C (x - 1))).xor (env (.C (x + 1))) := by
    intro x; rw [hdef1, run_thetaDBlock]
  have h1A : ∀ x y, env1 (.A x y) = env (.A x y) := by
    intro x y; rw [hdef1, run_thetaDBlock]
  have h2A : ∀ x y, env2 (.A x y) = (env1 (.A x y)).xor (env1 (.D x)) := by
    intro x y; rw [hdef2, run_thetaApplyBlock]
  have h3B : ∀ x y, env3 (.B x y) = env2 (.A (x + 3 * y) x) := by
    intro x y; rw [hdef3, run_rhoPiBlock]
  have h4E : ∀ x y, env4 (.E x y) = eval env3 (chiExpr (bFn mA) q x y) := by
    intro x y; rw [hdef4, run_chiBlock]
  have h5E : ∀ x y, env5 (.E x y) = (env4 (.E x y)).xor (iotaBit rc x y) := by
    intro x y
    rw [hdef5, run_iotaStmt]
    by_cases hxy : (Var.E x y) = (Var.E 0 0)
    · rw [hxy, Function.update_same]
      injection hxy with hx hy
      subst hx; subst hy
      simp [iotaBit]
    · rw [Function.update_noteq hxy]
      have hne : ¬(x = 0 ∧ y = 0) := by
        rintro ⟨rfl, rfl⟩
        exact hxy rfl
      simp [iotaBit, hne]
  have h6C : ∀ x, env6 (.C x) = xor5 (env5 (.E x 0)) (env5 (.E x 1))
      (env5 (.E x 2)) (env5 (.E x 3)) (env5 (.E x 4)) := by
    intro x; rw [hdef6, run_prepCBlock]
  have h6E : ∀ x y, env6 (.E x y) = env5 (.E x y) := by
    intro x y; rw [hdef6, run_prepCBlock]
  have key1 : ∀ x y, env2 (.A x y) = thetaFn (fun u v => (s u v).xor (mA u v)) x y := by
    intro x y
    simp only [h2A, h1A, h1D, hA, hC]
    rfl
  have key2 : ∀ x y, env3 (.B x y) = (bFn s x y).xor (bFn mA x y) := by
    intro x y
    rw [h3B, key1]
    rw [show thetaFn (fun u v => (s u v).xor (mA u v)) (x + 3 * y) x
        = bFn (fun u v => (s u v).xor (mA u v)) x y from rfl]
    rw [bFn_split]
  have key3 : ∀ x y, env4 (.E x y) = (chiFn (bFn s) x y).xor (q x y) := by
    intro x y
    rw [h4E, eval_chiExpr]
    simp only [key2]
    rw [show chiFn (bFn s) x y
        = (bFn s x y).xor ((!(bFn s (x + 1) y)) && (bFn s (x + 2) y)) from rfl]
    generalize bFn s x y = b0
    generalize bFn s (x + 1) y = b1
    generalize bFn s (x + 2) y = b2
    generalize bFn mA x y = m0
    generalize bFn mA (x + 1) y = m1
    generalize bFn mA (x + 2) y = m2
    generalize q x y = q0
    revert b0 b1 b2 m0 m1 m2 q0
    decide
  have key4 : ∀ x y, env5 (.E x y) = (roundFn rc s x y).xor (q x y) := by
    intro x y
    rw [h5E, key3]
    rw [show roundFn rc s x y = (chiFn (bFn s) x y).xor (iotaBit rc x y) from rfl]
    generalize chiFn (bFn s) x y = c0
    generalize q x y = q0
    generalize iotaBit rc x y = i0
    revert c0 q0 i0
    decide
  constructor
  · intro x y
    rw [h6E, key4]
  · intro x
    rw [h6C]
    simp only [key4]
    rfl

/-- One chained round followed by the copy of E back into A re-establishes
the chained-round environment facts for the round's output under its
output polarity. -/
theorem round_step (rc : Bool) (q mA : Mask) (s : State) (env : Env)
    (h : GoodEnv s mA env) :
    GoodEnv (roundFn rc s) q
      (run (genCodeForRound true (bFn mA) q rc ++ genCopyStateVariables) env) := by
  obtain ⟨hE, hCc⟩ := round_core rc q mA s env h
  rw [run_append]
  unfold GoodEnv
  constructor
  · intro x y
    rw [run_genCopyStateVariables]
    show run (genCodeForRound true (bFn mA) q rc) env (.E x y) = _
    rw [hE]
  · intro x
    rw [run_genCopyStateVariables]
    show run (genCodeForRound true (bFn mA) q rc) env (.C x) = _
    rw [hCc]

/-- The inline first-round sheet-parity code establishes the chained-round
environment facts from the plain input state. -/
theorem prepare_theta_init (s : State) :
    GoodEnv s zeroMask (run genCodeForPrepareTheta (initEnv s)) := by
  unfold GoodEnv
  constructor
  · intro x y
    rw [run_genCodeForPrepareTheta]
    show initEnv s (.A x y) = (s x y).xor (zeroMask x y)
    simp [initEnv, zeroMask]
  · intro x
    rw [run_genCodeForPrepareTheta]
    show xor5 (initEnv s (.A x 0)) (initEnv s (.A x 1)) (initEnv s (.A x 2))
        (initEnv s (.A x 3)) (initEnv s (.A x 4))
      = colParity (fun u v => (s u v).xor (zeroMask u v)) x
    simp [initEnv, zeroMask, colParity]

/-- The final polarity fix-up recovers the true state from a complemented
environment. -/
theorem exit_fix_run (mA : Mask) (s : State) (env : Env) (h : GoodEnv s mA env) :
    ∀ x y, run (finalComplementFix mA) env (.A x y) = s x y := by
  obtain ⟨hA, -⟩ := h
  intro x y
  rw [run_finalComplementFix]
  show eval env (strNOT (.var (.A x y)) (mA x y)) = s x y
  rw [eval_strNOT]
  show (env (.A x y)).xor (mA x y) = s x y
  rw [hA]
  generalize s x y = a
  generalize mA x y = m
  revert a m
  decide

/-- The chained rounds of the assembled unit compute the corresponding
rounds of the reference permutation, whatever the complementing
schedule. -/
theorem roundsCode_run (RC : Nat → Bool) (q : Nat → Mask) :
    ∀ (nr i : Nat) (mA : Mask) (s : State) (env : Env), GoodEnv s mA env →
      ∀ x y, run (roundsCode RC q nr i mA) env (.A x y) = permFrom RC i nr s x y := by
  intro nr
  induction nr with
  | zero =>
    intro i mA s env h x y
    exact exit_fix_run mA s env h x y
  | succ k ih =>
    intro i mA s env h x y
    rw [show roundsCode RC q (k + 1) i mA
        = (genCodeForRound true (bFn mA) (q i) (RC i) ++ genCopyStateVariables)
          ++ roundsCode RC q k (i + 1) (q i) from rfl]
    rw [run_append]
    exact ih (i + 1) (q i) (roundFn (RC i) s) _ (round_step (RC i) (q i) mA s env h) x y

/-- The complete assembled unit computes the reference permutation, for
every complementing schedule. -/
theorem genMacroFileProgram_run (RC : Nat → Bool) (q : Nat → Mask) (n : Nat)
    (s : State) : progFun (genMacroFileProgram RC q n) s = keccakP RC n s := by
  funext x y
  show run (genCodeForPrepareTheta ++ roundsCode RC q n 0 zeroMask) (initEnv s) (.A x y) = _
  rw [run_append]
  exact roundsCode_run RC q n 0 zeroMask s _ (prepare_theta_init s) x y

/-! ## Lemmas supporting the theta-pipelining claim -/

theorem bFn_zeroMask : bFn zeroMask = zeroMask := by
  funext x y
  simp [bFn, piTrans, thetaFn, colParity, xor5, zeroMask]

/-- Without the prepareTheta request the round code leaves the C variables
untouched. -/
theorem noPrep_C_unchanged (pIn q : Mask) (rc : Bool) (env : Env) (x : Fin 5) :
    run (genCodeForRound false pIn q rc) env (.C x) = env (.C x) := by
  rw [show genCodeForRound false pIn q rc
      = thetaDBlock ++ (thetaApplyBlock ++ (rhoPiBlock
          ++ (chiBlock pIn q ++ [iotaStmt rc]))) from by
    simp [genCodeForRound]]
  rw [run_append, run_append, run_append, run_append]
  rw [run_iotaStmt]
  rw [Function.update_noteq (by simp)]
  rw [run_chiBlock]
  show run rhoPiBlock (run thetaApplyBlock (run thetaDBlock env)) (.C x) = env (.C x)
  rw [run_rhoPiBlock]
  show run thetaApplyBlock (run thetaDBlock env) (.C x) = env (.C x)
  rw [run_thetaApplyBlock]
  show run thetaDBlock env (.C x) = env (.C x)
  rw [run_thetaDBlock]

/-! ## Bijectivity of the reference permutation -/

theorem colParity_thetaFn (a : State) (x : Fin 5) :
    colParity (thetaFn a) x
      = (colParity a x).xor ((colParity a (x - 1)).xor (colParity a (x + 1))) := by
  rw [show colParity (thetaFn a) x = xor5 (thetaFn a x 0) (thetaFn a x 1)
      (thetaFn a x 2) (thetaFn a x 3) (thetaFn a x 4) from rfl]
  rw [show colParity a x = xor5 (a x 0) (a x 1) (a x 2) (a x 3) (a x 4) from rfl]
  simp only [thetaFn]
  generalize a x 0 = a0
  generalize a x 1 = a1
  generalize a x 2 = a2
  generalize a x 3 = a3
  generalize a x 4 = a4
  generalize colParity a (x - 1) = c1
  generalize colParity a (x + 1) = c2
  revert a0 a1 a2 a3 a4 c1 c2
  decide

theorem thetaFn_injective : Function.Injective thetaFn := by
  intro a b hab
  have hp : ∀ x, (colParity a x).xor ((colParity a (x - 1)).xor (colParity a (x + 1)))
      = (colParity b x).xor ((colParity b (x - 1)).xor (colParity b (x + 1))) := by
    intro x
    rw [← colParity_thetaFn, ← colParity_thetaFn, hab]
  have hM : ∀ pa pb : Fin 5 → Bool,
      (∀ x, (pa x).xor ((pa (x - 1)).xor (pa (x + 1)))
        = (pb x).xor ((pb (x - 1)).xor (pb (x + 1)))) → ∀ x, pa x = pb x := by
    decide
  have hcp : ∀ x, colParity a x = colParity b x := hM _ _ hp
  funext x y
  have hpt := congrFun (congrFun hab x) y
  simp only [thetaFn] at hpt
  rw [hcp, hcp] at hpt
  have hcancel : ∀ u v t : Bool, u.xor t = v.xor t → u = v := by decide
  exact hcancel _ _ _ hpt

theorem piTrans_injective : Function.Injective piTrans := by
  intro a b h
  funext u v
  have hpt := congrFun (congrFun h v) (2 * (u - v))
  simp only [piTrans] at hpt
  have hfin : ∀ u v : Fin 5, v + 3 * (2 * (u - v)) = u := by decide
  rw [hfin] at hpt
  exact hpt

theorem chiFn_injective : Function.Injective chiFn := by
  intro a b h
  have hrow : ∀ r1 r2 : Fin 5 → Bool, (∀ x, chiRow r1 x = chiRow r2 x) → r1 = r2 := by
    decide
  funext x y
  have hy : (fun u => a u y) = (fun u => b u y) :=
    hrow _ _ (fun u => congrFun (congrFun h u) y)
  exact congrFun hy x

theorem roundFn_injective (rc : Bool) : Function.Injective (roundFn rc) := by
  intro a b h
  have hcancel : ∀ u v t : Bool, u.xor t = v.xor t → u = v := by decide
  have h2 : chiFn (bFn a) = chiFn (bFn b) := by
    funext x y
    exact hcancel _ _ _ (congrFun (congrFun h x) y)
  have h3 : bFn a = bFn b := chiFn_injective h2
  have h4 : thetaFn a = thetaFn b := piTrans_injective h3
  exact thetaFn_injective h4

theorem permFrom_injective (RC : Nat → Bool) :
    ∀ (nr i : Nat), Function.Injective (permFrom RC i nr) := by
  intro nr
  induction nr with
  | zero => intro i a b h; exact h
  | succ k ih =>
    intro i a b h
    exact roundFn_injective (RC i) (ih (i + 1) h)

theorem keccakP_bijective (RC : Nat → Bool) (n : Nat) :
    Function.Bijective (keccakP RC n) :=
  Finite.injective_iff_bijective.mp (permFrom_injective RC n 0)

/-! ## Oracle table lemmas -/

theorem generateLUT_length (RC : Nat → Bool) (n : Nat) :
    (generateLUT RC n).length = 2 ^ 25 := by
  simp [generateLUT]

theorem generateLUT_getD (RC : Nat → Bool) (n : Nat) (i : Fin (2 ^ 25)) :
    (generateLUT RC n).getD i.val 0
      = (stateEquiv (keccakP RC n (stateEquiv.symm i))).val := by
  have hlen : i.val < (generateLUT RC n).length := by
    rw [generateLUT_length]
    exact i.isLt
  rw [List.getD_eq_getElem _ _ hlen]
  unfold generateLUT
  rw [List.getElem_map, List.getElem_finRange]
  congr 2

theorem generateLUT_count (RC : Nat → Bool) (n : Nat) (v : Fin (2 ^ 25)) :
    (generateLUT RC n).count v.val = 1 := by
  have hbij := keccakP_bijective RC n
  set gE : Fin (2 ^ 25) ≃ Fin (2 ^ 25) :=
    stateEquiv.symm.trans ((Equiv.ofBijective _ hbij).trans stateEquiv) with hgE
  have hfun : generateLUT RC n = (List.finRange (2 ^ 25)).map fun i => (gE i).val := rfl
  have hinj : Function.Injective fun i : Fin (2 ^ 25) => (gE i).val :=
    fun a b hab => gE.injective (Fin.val_injective hab)
  have hv : v.val = (fun i : Fin (2 ^ 25) => (gE i).val) (gE.symm v) := by
    show v.val = (gE (gE.symm v)).val
    rw [Equiv.apply_symm_apply]
  rw [hfun, hv, List.count_map_of_injective _ _ hinj]
  exact List.count_eq_one_of_mem (List.nodup_finRange _) (List.mem_finRange _)

/-! ## Cache behaviour lemmas -/

theorem retrieveLUT_saveLUT (c : Cache) (n : Nat) (t : List Nat)
    (h : t.length = 2 ^ 25) : retrieveLUT (saveLUT c n t) n = some t := by
  have hup : saveLUT c n t (25, n) = some t := Function.update_same _ _ _
  show (match saveLUT c n t (25, n) with
    | some u => if u.length = 2 ^ 25 then some u else none
    | none => none) = some t
  rw [hup]
  show (if t.length = 2 ^ 25 then some t else none) = some t
  rw [if_pos h]

theorem construct_LUT_eq (RC : Nat → Bool) (c : Cache) (n : Nat)
    (h : WellFormedCache RC c) :
    (KeccakF25LUT.construct RC c n).1.LUT = generateLUT RC n := by
  cases hr : retrieveLUT c n with
  | none => simp only [KeccakF25LUT.construct, hr]
  | some t =>
    have hLUT : (KeccakF25LUT.construct RC c n).1.LUT = t := by
      simp only [KeccakF25LUT.construct, hr]
    rw [hLUT]
    unfold retrieveLUT at hr
    cases hc : c (25, n) with
    | none => rw [hc] at hr; exact absurd hr (by simp)
    | some u =>
      rw [hc] at hr
      have hr2 : (if u.length = 2 ^ 25 then some u else none) = some t := hr
      by_cases hl : u.length = 2 ^ 25
      · rw [if_pos hl] at hr2
        injection hr2 with ht
        rw [← ht]
        exact h n u hc
      · rw [if_neg hl] at hr2
        exact absurd hr2 (by simp)

theorem wellFormedCache_empty (RC : Nat → Bool) : WellFormedCache RC emptyCache :=
  fun _ _ h => Option.noConfusion h

/-! ## The claims -/

/-- C1: for width 25, interleaving factor 1 and every round count (in
particular 1, 2 and 12), every complete generated unit assembled by
`genMacroFile` computes, on each of the 2^25 possible inputs, exactly the
value the Oracle's lookup table holds at that input's index. -/
theorem C1_generated_matches_oracle (RC : Nat → Bool) (n : Nat)
    (laneComplementing : Bool) (p : Program)
    (hp : p ∈ genMacroFile RC n laneComplementing) (i : Fin (2 ^ 25)) :
    (generateLUT RC n).getD i.val 0
      = (stateEquiv (progFun p (stateEquiv.symm i))).val := by
  have hs : progFun (straightforwardProgram RC n) = keccakP RC n := by
    funext s
    exact genMacroFileProgram_run RC (fun _ => zeroMask) n s
  have hcp : progFun (complementedProgram RC n) = keccakP RC n := by
    funext s
    exact genMacroFileProgram_run RC (fun _ => stdMask) n s
  have hperm : progFun p = keccakP RC n := by
    unfold genMacroFile at hp
    cases laneComplementing with
    | true =>
      rw [if_pos rfl] at hp
      simp only [List.mem_cons, List.mem_singleton, List.not_mem_nil, or_false] at hp
      rcases hp with rfl | rfl
      · exact hs
      · exact hcp
    | false =>
      rw [if_neg (by simp)] at hp
      rw [List.mem_singleton] at hp
      rw [hp]
      exact hs
  rw [generateLUT_getD, hperm]

theorem C1_witness :
    (generateLUT (fun _ => false) 1).getD (0 : Fin (2 ^ 25)).val 0
      = (stateEquiv (progFun (straightforwardProgram (fun _ => false) 1)
          (stateEquiv.symm (0 : Fin (2 ^ 25))))).val :=
  C1_generated_matches_oracle (fun _ => false) 1 false _ (by simp [genMacroFile]) 0

/-- C2: for every round count for which a `KeccakF25LUT` is constructed
(from any well-formed cache), the resulting table has 2^25 entries and is
a bijection on slice values: every one of the 2^25 possible output values
appears at exactly one index. -/
theorem C2_LUT_bijective (RC : Nat → Bool) (c : Cache) (n : Nat)
    (h : WellFormedCache RC c) (v : Fin (2 ^ 25)) :
    (KeccakF25LUT.construct RC c n).1.LUT.length = 2 ^ 25 ∧
      (KeccakF25LUT.construct RC c n).1.LUT.count v.val = 1 := by
  rw [construct_LUT_eq RC c n h]
  exact ⟨generateLUT_length RC n, generateLUT_count RC n v⟩

theorem C2_witness :
    (KeccakF25LUT.construct (fun _ => false) emptyCache 1).1.LUT.length = 2 ^ 25 ∧
      (KeccakF25LUT.construct (fun _ => false) emptyCache 1).1.LUT.count
        (0 : Fin (2 ^ 25)).val = 1 :=
  C2_LUT_bijective (fun _ => false) emptyCache 1 (wellFormedCache_empty _) 0

/-- C3: for every round count, any two constructions of `KeccakF25LUT`
with that round count produce bit-identical lookup tables, whether each
table was recomputed by `generateLUT` or loaded from a (well-formed)
cache by `retrieveLUT`. -/
theorem C3_LUT_deterministic (RC : Nat → Bool) (n : Nat) (c1 c2 : Cache)
    (h1 : WellFormedCache RC c1) (h2 : WellFormedCache RC c2) :
    (KeccakF25LUT.construct RC c1 n).1.LUT
      = (KeccakF25LUT.construct RC c2 n).1.LUT := by
  rw [construct_LUT_eq RC c1 n h1, construct_LUT_eq RC c2 n h2]

theorem C3_witness :
    (KeccakF25LUT.construct (fun _ => false) emptyCache 1).1.LUT
      = (KeccakF25LUT.construct (fun _ => false)
          (saveLUT emptyCache 1 (generateLUT (fun _ => false) 1)) 1).1.LUT := by
  have hwf2 : WellFormedCache (fun _ => false)
      (saveLUT emptyCache 1 (generateLUT (fun _ => false) 1)) := by
    intro m u hm
    by_cases hk : m = 1
    · subst hk
      have hupd : saveLUT emptyCache 1 (generateLUT (fun _ => false) 1)
          ((25 : Nat), (1 : Nat)) = some (generateLUT (fun _ => false) 1) :=
        Function.update_same _ _ _
      exact (Option.some.inj (hupd.symm.trans hm)).symm
    · have hupd : saveLUT emptyCache 1 (generateLUT (fun _ => false) 1)
          ((25 : Nat), m) = emptyCache (25, m) :=
        Function.update_noteq (by simp [Prod.ext_iff, hk]) _ _
      exact Option.noConfusion (hupd.symm.trans hm)
  exact C3_LUT_deterministic (fun _ => false) 1 emptyCache _
    (wellFormedCache_empty _) hwf2

/-- C4: saving any table the Oracle holds with `saveLUT` and loading it
back with `retrieveLUT` under the same round count reproduces the table
exactly, entry for entry in ascending input-index order. -/
theorem C4_save_retrieve_roundtrip (RC : Nat → Bool) (c : Cache) (n : Nat) :
    retrieveLUT (saveLUT c n (generateLUT RC n)) n = some (generateLUT RC n) :=
  retrieveLUT_saveLUT c n _ (generateLUT_length RC n)

/-- C5: when the cache-read attempt during construction fails for any
reason (entry missing, truncated, or under mismatched parameters),
construction still succeeds and yields the same fully populated
2^25-entry table as a construction with a cold cache; the fault never
surfaces as a construction failure. -/
theorem C5_cache_fault_recoverable (RC : Nat → Bool) (c : Cache) (n : Nat)
    (h : retrieveLUT c n = none) :
    (KeccakF25LUT.construct RC c n).1.LUT
        = (KeccakF25LUT.construct RC emptyCache n).1.LUT ∧
      (KeccakF25LUT.construct RC c n).1.LUT.length = 2 ^ 25 := by
  have hx : (KeccakF25LUT.construct RC c n).1.LUT = generateLUT RC n := by
    simp only [KeccakF25LUT.construct, h]
  have hy : (KeccakF25LUT.construct RC emptyCache n).1.LUT = generateLUT RC n := by
    simp only [KeccakF25LUT.construct,
      show retrieveLUT emptyCache n = none from rfl]
  rw [hx, hy]
  exact ⟨rfl, generateLUT_length RC n⟩

theorem C5_witness :
    (KeccakF25LUT.construct (fun _ => false)
        (fun k => if k = ((25 : Nat), (1 : Nat)) then some [] else none) 1).1.LUT
        = (KeccakF25LUT.construct (fun _ => false) emptyCache 1).1.LUT ∧
      (KeccakF25LUT.construct (fun _ => false)
        (fun k => if k = ((25 : Nat), (1 : Nat)) then some [] else none) 1).1.LUT.length
        = 2 ^ 25 :=
  C5_cache_fault_recoverable (fun _ => false) _ 1 (by rfl)

/-- C6: an interleaving factor that does not evenly divide the lane size,
or a schedule type outside {1, 2}, is rejected at the time of the call
(fail fast, no new configuration, so the caller's configuration stands
unchanged), and any configuration an accepted call does produce carries
only validated values, so no emission can observe an invalid one. -/
theorem C6_setters_fail_fast (g : KeccakFCodeGen) (f t : Nat) :
    (¬ f ∣ g.laneSize → setInterleavingFactor g f = none) ∧
    (t ≠ 1 ∧ t ≠ 2 → setScheduleType g t = none) ∧
    (∀ g2, setInterleavingFactor g f = some g2 →
      f ∣ g.laneSize ∧ g2.interleavingFactor = f ∧ g2.laneSize = g.laneSize) ∧
    (∀ g2, setScheduleType g t = some g2 →
      g2.scheduleType = 1 ∨ g2.scheduleType = 2) := by
  refine ⟨?_, ?_, ?_, ?_⟩
  · intro hnd
    unfold setInterleavingFactor
    rw [if_neg (fun hc => hnd hc.2)]
  · intro ht
    unfold setScheduleType
    rw [if_neg (fun hc => hc.elim ht.1 ht.2)]
  · intro g2 h
    unfold setInterleavingFactor at h
    by_cases hc : 1 ≤ f ∧ f ∣ g.laneSize
    · rw [if_pos hc] at h
      injection h with h
      refine ⟨hc.2, ?_, ?_⟩ <;> rw [← h]
    · rw [if_neg hc] at h
      exact Option.noConfusion h
  · intro g2 h
    unfold setScheduleType at h
    by_cases hc : t = 1 ∨ t = 2
    · rw [if_pos hc] at h
      injection h with h
      rw [← h]
      exact hc
    · rw [if_neg hc] at h
      exact Option.noConfusion h

theorem C6_witness :
    setInterleavingFactor (KeccakFCodeGen.construct 1600 12) 7 = none ∧
      setScheduleType (KeccakFCodeGen.construct 1600 12) 3 = none :=
  ⟨(C6_setters_fail_fast (KeccakFCodeGen.construct 1600 12) 7 3).1 (by decide),
    (C6_setters_fail_fast (KeccakFCodeGen.construct 1600 12) 7 3).2.1 (by decide)⟩

/-- C7: for every lane and every pair of chi masks, the χ expression
emitted by `genCodeForRound` computes lane XOR (NOT neighbor1 AND
neighbor2) on the true values of the lane and its two row-neighbors, up to
the declared output polarity; the extra negation on the lane operand is
emitted exactly when that lane's input polarity and desired output
polarity disagree, never unconditionally. -/
theorem C7_chi_expression (pIn pOut : Mask) (x y : Fin 5) (env : Env)
    (b : State) (hB : ∀ u v, env (.B u v) = (b u v).xor (pIn u v)) :
    (eval env (chiExpr pIn pOut x y)
        = ((b x y).xor ((!(b (x + 1) y)) && b (x + 2) y)).xor (pOut x y)) ∧
    (pIn x y ≠ pOut x y →
      chiExpr pIn pOut x y = .xor (.not (.var (.B x y)))
        (strANDORnot (.var (.B (x + 1) y)) (.var (.B (x + 2) y))
          (pIn (x + 1) y) (pIn (x + 2) y)
          (!(pIn (x + 1) y) && pIn (x + 2) y))) ∧
    (pIn x y = pOut x y →
      chiExpr pIn pOut x y = .xor (.var (.B x y))
        (strANDORnot (.var (.B (x + 1) y)) (.var (.B (x + 2) y))
          (pIn (x + 1) y) (pIn (x + 2) y)
          (!(pIn (x + 1) y) && pIn (x + 2) y))) := by
  refine ⟨?_, ?_, ?_⟩
  · rw [eval_chiExpr]
    simp only [hB]
    generalize b x y = b0
    generalize b (x + 1) y = b1
    generalize b (x + 2) y = b2
    generalize pIn x y = p0
    generalize pIn (x + 1) y = p1
    generalize pIn (x + 2) y = p2
    generalize pOut x y = q0
    revert b0 b1 b2 p0 p1 p2 q0
    decide
  · intro h
    have hb : (pIn x y != pOut x y) = true := by rwa [bne_iff_ne]
    unfold chiExpr
    rw [hb]
    rfl
  · intro h
    have hb : (pIn x y != pOut x y) = false := by
      rw [bne_eq_false_iff_eq]
      exact h
    unfold chiExpr
    rw [hb]
    rfl

theorem C7_witness :
    chiExpr zeroMask stdMask 1 0 = .xor (.not (.var (.B 1 0)))
      (strANDORnot (.var (.B 2 0)) (.var (.B 3 0))
        (zeroMask 2 0) (zeroMask 3 0) (!(zeroMask 2 0) && zeroMask 3 0)) :=
  (C7_chi_expression zeroMask stdMask 1 0 (fun _ => false) (fun _ _ => false)
    (by decide)).2.1 (by decide)

/-- C8: the assembled code with the lane-complementing optimization
enabled (non-zero chi masks, the OR/AND forms of `strANDORnot`) computes,
for every input, the same permutation function as the straightforward
assembled variant with every lane in true polarity. -/
theorem C8_lane_complementing_equiv (RC : Nat → Bool) (n : Nat) (s : State) :
    progFun (complementedProgram RC n) s
      = progFun (straightforwardProgram RC n) s := by
  rw [show complementedProgram RC n
      = genMacroFileProgram RC (fun _ => stdMask) n from rfl]
  rw [show straightforwardProgram RC n
      = genMacroFileProgram RC (fun _ => zeroMask) n from rfl]
  rw [genMacroFileProgram_run, genMacroFileProgram_run]

/-- C9: with prepareTheta requested, `genCodeForRound` computes the sheet
parities into the C variables one round ahead — they equal the parities of
the round's E output, which is the next round's theta input, so the next
round reuses them without recomputation; with prepareTheta off the C
variables are untouched, and for the first round `genCodeForPrepareTheta`
computes them inline from the round's input state A. -/
theorem C9_theta_pipelining (rc : Bool) (s : State) (env : Env)
    (hA : ∀ x y, env (.A x y) = s x y) (hC : ∀ x, env (.C x) = colParity s x) :
    (∀ x, run (genCodeForRound true zeroMask zeroMask rc) env (.C x)
        = colParity (fun u v =>
            run (genCodeForRound true zeroMask zeroMask rc) env (.E u v)) x) ∧
    (∀ x y, run (genCodeForRound true zeroMask zeroMask rc) env (.E x y)
        = roundFn rc s x y) ∧
    (∀ x, run (genCodeForRound false zeroMask zeroMask rc) env (.C x) = env (.C x)) ∧
    (∀ (x : Fin 5) (env2 : Env), run genCodeForPrepareTheta env2 (.C x)
        = colParity (fun u v => env2 (.A u v)) x) := by
  have hg : GoodEnv s zeroMask env := by
    constructor
    · intro x y
      rw [hA]
      simp [zeroMask]
    · intro x
      rw [hC]
      simp [zeroMask]
  have hcore := round_core rc zeroMask zeroMask s env hg
  rw [bFn_zeroMask] at hcore
  obtain ⟨hE, hCc⟩ := hcore
  have hE2 : ∀ x y, run (genCodeForRound true zeroMask zeroMask rc) env (.E x y)
      = roundFn rc s x y := by
    intro x y
    rw [hE]
    simp [zeroMask]
  refine ⟨?_, hE2, ?_, ?_⟩
  · intro x
    rw [hCc]
    simp only [hE2]
    simp [zeroMask]
  · intro x
    exact noPrep_C_unchanged zeroMask zeroMask rc env x
  · intro x env2
    rw [run_genCodeForPrepareTheta]
    rfl

theorem C9_witness :
    run genCodeForPrepareTheta (initEnv (fun _ _ => false)) (.C 0)
      = colParity (fun u v => initEnv (fun _ _ => false) (.A u v)) 0 :=
  (C9_theta_pipelining false (fun _ _ => false) (initEnv (fun _ _ => false))
    (fun _ _ => rfl) (fun _ => rfl)).2.2.2 0 _

/-- C10: the generator invariant wordSize = laneSize / interleavingFactor
holds after construction (with the defaults interleavingFactor = 1,
outputMacros = false, scheduleType = 1), is re-established by every
accepted `setInterleavingFactor` call, and no other operation changes
wordSize, interleavingFactor or laneSize. -/
theorem C10_wordSize_invariant (w nr : Nat) (g : KeccakFCodeGen) (f t : Nat)
    (b : Bool) :
    ((KeccakFCodeGen.construct w nr).wordSize
        = (KeccakFCodeGen.construct w nr).laneSize
          / (KeccakFCodeGen.construct w nr).interleavingFactor ∧
      (KeccakFCodeGen.construct w nr).interleavingFactor = 1 ∧
      (KeccakFCodeGen.construct w nr).outputMacros = false ∧
      (KeccakFCodeGen.construct w nr).scheduleType = 1) ∧
    (∀ g2, setInterleavingFactor g f = some g2 →
      g2.wordSize = g2.laneSize / g2.interleavingFactor) ∧
    (∀ g2, setScheduleType g t = some g2 →
      g2.wordSize = g.wordSize ∧ g2.interleavingFactor = g.interleavingFactor ∧
        g2.laneSize = g.laneSize) ∧
    ((setOutputMacros g b).wordSize = g.wordSize ∧
      (setOutputMacros g b).interleavingFactor = g.interleavingFactor ∧
      (setOutputMacros g b).laneSize = g.laneSize) := by
  refine ⟨⟨?_, rfl, rfl, rfl⟩, ?_, ?_, ⟨rfl, rfl, rfl⟩⟩
  · show w / 25 = w / 25 / 1
    rw [Nat.div_one]
  · intro g2 h
    unfold setInterleavingFactor at h
    by_cases hc : 1 ≤ f ∧ f ∣ g.laneSize
    · rw [if_pos hc] at h
      injection h with h
      rw [← h]
    · rw [if_neg hc] at h
      exact Option.noConfusion h
  · intro g2 h
    unfold setScheduleType at h
    by_cases hc : t = 1 ∨ t = 2
    · rw [if_pos hc] at h
      injection h with h
      rw [← h]
      exact ⟨rfl, rfl, rfl⟩
    · rw [if_neg hc] at h
      exact Option.noConfusion h

theorem C10_witness :
    sampleInterleaved.wordSize
      = sampleInterleaved.laneSize / sampleInterleaved.interleavingFactor :=
  (C10_wordSize_invariant 1600 12 (KeccakFCodeGen.construct 1600 12) 2 1 false).2.1
    sampleInterleaved (by decide)

end KeccakTools
